import Mathlib

/-!
Verification of the input abstraction of `src/input.c` (alsa-lib).

The file shallowly embeds the two backends of the polymorphic input handle:
the stdio (stream) backend and the in-memory buffer backend, together with
their five operations.  Pointers into the owned byte array are modelled as
offsets (`ptrIdx`), the caller's destination buffer of `gets` is modelled by
the list of bytes stored through it (`writes`, sequential from offset 0),
and `size_t` arithmetic is carried out modulo `2 ^ 64`.
-/

/-- `size_t` modulus of the target platform. -/
def w64 : Nat := 2 ^ 64

/-- Machine decrement of a `size_t` value: `--size` wraps around at zero. -/
def pred64 (n : Nat) : Nat := (n + (w64 - 1)) % w64

/-- The C `EOF` sentinel. -/
def cEOF : Int := -1

/-- Outcome of a failed C `assert`: the process aborts with a diagnostic. -/
inductive CAssertFail where
  | fail
deriving DecidableEq

/-- C `assert(cond)`: continues when the condition holds, aborts otherwise. -/
def cassert (p : Prop) [Decidable p] : Except CAssertFail Unit :=
  if p then .ok () else .error .fail

/-- C cast of an `int` to `unsigned char`: value modulo 256. -/
def ucharOfInt (c : Int) : Nat := (c % 256).toNat

/-- C `strlen`: offset of the first 0 byte. -/
def cStrlen : List Nat → Nat
  | [] => 0
  | c :: cs => if c = 0 then 0 else cStrlen cs + 1

/-- State of the buffer backend (`struct _snd_input_buffer`): `buf` is the
owned byte array (original bytes plus the trailing 0 written by the
constructor), `ptrIdx` is the cursor `ptr` as an offset from `buf`, and
`size` is the remaining-byte counter. -/
structure SndInputBuffer where
  buf : List Nat
  ptrIdx : Nat
  size : Nat
deriving DecidableEq, Repr

/-- `snd_input_buffer_open` (success path of the three allocations): a
negative `size` means "use `strlen(buf)`"; an array of `size + 1` bytes is
allocated, the source bytes copied in, a 0 byte appended, the cursor set to
the array start and the remaining counter to `size`. -/
def snd_input_buffer_open (data : List Nat) (size : Int) : SndInputBuffer :=
  let n : Nat := if size < 0 then cStrlen data else size.toNat
  { buf := data.take n ++ [0], ptrIdx := 0, size := n }

/-- `snd_input_buffer_getc`: on empty remaining input return `EOF`; else
decrement `size`, return the byte at the cursor and advance the cursor. -/
def snd_input_buffer_getc (b : SndInputBuffer) : Int × SndInputBuffer :=
  if b.size = 0 then (cEOF, b)
  else ((b.buf.getD b.ptrIdx 0 : Nat), { b with size := b.size - 1, ptrIdx := b.ptrIdx + 1 })

/-- `snd_input_buffer_ungetc`: at the start of the owned array return `EOF`;
else retreat the cursor, `assert` that the byte there equals `(unsigned char) c`,
increment `size` and return `c`. -/
def snd_input_buffer_ungetc (b : SndInputBuffer) (c : Int) :
    Except CAssertFail (Int × SndInputBuffer) :=
  if b.ptrIdx = 0 then .ok (cEOF, b)
  else
    match cassert (b.buf.getD (b.ptrIdx - 1) 0 = ucharOfInt c) with
    | .error e => .error e
    | .ok _ => .ok (c, { b with ptrIdx := b.ptrIdx - 1, size := b.size + 1 })

/-- `snd_input_buffer_scanf`: `assert(0)` fires unconditionally before the
`vsscanf` call; the external `vsscanf` primitive is passed in as a parameter
and is never reached. -/
def snd_input_buffer_scanf (vsscanf : List Nat → String → Int)
    (b : SndInputBuffer) (format : String) :
    Except CAssertFail (Int × SndInputBuffer) :=
  match cassert ((0 : Nat) ≠ 0) with
  | .error e => .error e
  | .ok _ => .ok (vsscanf (b.buf.drop b.ptrIdx) format, b)

/-- The copy loop of `snd_input_buffer_gets`:
`while (--size > 0 && bsize > 0) { c = *buffer->ptr++; bsize--; *str++ = c;
if (c == '\n') break; }`.
Arguments are the owned array, the local `bsize`, the cursor offset and the
`size` parameter; the result is (bytes copied to `str`, final cursor offset,
final `bsize`).  Recursion is on `bsize`, which the body always decrements. -/
def getsLoop (buf : List Nat) : Nat → Nat → Nat → List Nat × Nat × Nat
  | 0, ptrIdx, _ => ([], ptrIdx, 0)
  | bsize + 1, ptrIdx, size =>
    if pred64 size = 0 then ([], ptrIdx, bsize + 1)
    else
      let c := buf.getD ptrIdx 0
      if c = 10 then ([c], ptrIdx + 1, bsize)
      else
        let r := getsLoop buf bsize (ptrIdx + 1) (pred64 size)
        (c :: r.1, r.2.1, r.2.2)

/-- Result of `snd_input_buffer_gets`: `result` is the returned pointer as an
offset from the caller's `str` (`none` = `NULL`), `writes` the bytes stored
through `str` in order starting at offset 0, `state` the backend state after
the call. -/
structure GetsResult where
  result : Option Nat
  writes : List Nat
  state : SndInputBuffer
deriving DecidableEq, Repr

/-- `snd_input_buffer_gets`: run the copy loop; if the local `bsize` still
equals `buffer->size` (nothing copied) return `NULL`, else store the new
remaining count, write a terminating 0 through `str` and return `str`
(which the loop advanced past the copied bytes). -/
def snd_input_buffer_gets (b : SndInputBuffer) (size : Nat) : GetsResult :=
  let r := getsLoop b.buf b.size b.ptrIdx size
  if r.2.2 = b.size then
    { result := none, writes := r.1, state := { b with ptrIdx := r.2.1 } }
  else
    { result := some r.1.length, writes := r.1 ++ [0],
      state := { b with ptrIdx := r.2.1, size := r.2.2 } }

/-- State of the stdio backend (`struct _snd_input_stdio`): the close flag
and the wrapped `FILE`, modelled by an opaque numeric identifier. -/
structure SndInputStdio where
  close : Int
  fp : Nat
deriving DecidableEq, Repr

/-- The guard of `snd_input_stdio_close` is `if (close)` with no local named
`close` in scope, so it tests the address of the function `close(2)` from
`unistd.h`; the address of a function is never null. -/
def unistdCloseAddress : Nat := 1

/-- `snd_input_stdio_close`: run `fclose(stdio->fp)` when `if (close)` holds
— which is always, since `close` there denotes the `unistd.h` function, not
the `stdio->close` flag — then free the backend state and return 0.
Result: (whether `fclose` ran on the underlying `FILE`, return value). -/
def snd_input_stdio_close (_s : SndInputStdio) : Bool × Int :=
  (decide (unistdCloseAddress ≠ 0), 0)

/-- `snd_input_stdio_attach`, success path of the two allocations: the
backend state records the `FILE` and the close flag. -/
def snd_input_stdio_attach (fp : Nat) (close : Int) : SndInputStdio :=
  { close := close, fp := fp }

/-- `snd_input_close` on a stdio-backed handle: dispatch to the backend's
close through the operation table, free the handle, return the backend's
status code. -/
def snd_input_close_stdio (s : SndInputStdio) : Bool × Int :=
  snd_input_stdio_close s

/-- One buffer-backend operation, for invariant preservation. -/
inductive BufOp where
  | getch
  | ungetch (c : Int)
  | getline (size : Nat)

/-- Apply one operation to a buffer state; `none` when a failed `assert`
aborts the process. -/
def applyOp (op : BufOp) (b : SndInputBuffer) : Option SndInputBuffer :=
  match op with
  | .getch => some (snd_input_buffer_getc b).2
  | .ungetch c =>
    match snd_input_buffer_ungetc b c with
    | .ok r => some r.2
    | .error _ => none
  | .getline size => some (snd_input_buffer_gets b size).state

/-- Run a sequence of buffer-backend operations. -/
def runOps : List BufOp → SndInputBuffer → Option SndInputBuffer
  | [], b => some b
  | op :: ops, b =>
    match applyOp op b with
    | some b2 => runOps ops b2
    | none => none

/-- The spec's buffer-state invariant: remaining fits below the allocated
size, the cursor stays within the original bytes, and cursor offset plus
remaining equals the original size (`allocated - 1`). -/
def BufInv (b : SndInputBuffer) : Prop :=
  1 ≤ b.buf.length ∧ b.size ≤ b.buf.length - 1 ∧ b.ptrIdx ≤ b.buf.length - 1 ∧
    b.ptrIdx + b.size = b.buf.length - 1

/-- Modelled from the spec's stopping rule for read-line: take bytes from the
input, at most `n` of them, stopping after the first newline (inclusive). -/
def takeLine : Nat → List Nat → List Nat
  | 0, _ => []
  | _ + 1, [] => []
  | n + 1, c :: cs => if c = 10 then [c] else c :: takeLine n cs

/-- Iterate `snd_input_buffer_getc`, collecting the returned values. -/
def getcN : Nat → SndInputBuffer → List Int × SndInputBuffer
  | 0, b => ([], b)
  | n + 1, b =>
    let r := snd_input_buffer_getc b
    let r2 := getcN n r.2
    (r.1 :: r2.1, r2.2)

theorem pred64_eq_sub_one (n : Nat) (h1 : 0 < n) (h2 : n < w64) : pred64 n = n - 1 := by
  have hw : w64 = 18446744073709551616 := by norm_num [w64]
  simp only [pred64, hw] at *
  omega

theorem pred64_zero : pred64 0 = w64 - 1 := by
  have hw : w64 = 18446744073709551616 := by norm_num [w64]
  simp only [pred64, hw]

theorem getsLoop_shape (buf : List Nat) :
    ∀ bsize ptrIdx size : Nat,
      (getsLoop buf bsize ptrIdx size).2.1 = ptrIdx + (getsLoop buf bsize ptrIdx size).1.length
      ∧ (getsLoop buf bsize ptrIdx size).2.2 = bsize - (getsLoop buf bsize ptrIdx size).1.length
      ∧ (getsLoop buf bsize ptrIdx size).1.length ≤ bsize := by
  intro bsize
  induction bsize with
  | zero => intro ptrIdx size; simp [getsLoop]
  | succ n ih =>
    intro ptrIdx size
    simp only [getsLoop]
    split
    · simp
    · split
      · simp
      · have h := ih (ptrIdx + 1) (pred64 size)
        simp only [List.length_cons]
        exact ⟨by omega, by omega, by omega⟩

theorem getsLoop_copied (buf : List Nat) :
    ∀ bsize ptrIdx size : Nat, 0 < size → size < w64 → ptrIdx + bsize ≤ buf.length →
      (getsLoop buf bsize ptrIdx size).1 = takeLine (size - 1) ((buf.drop ptrIdx).take bsize) := by
  intro bsize
  induction bsize with
  | zero =>
    intro ptrIdx size _ _ _
    cases h : size - 1 <;> simp [getsLoop, takeLine]
  | succ n ih =>
    intro ptrIdx size hpos hlt hlen
    have hp : ptrIdx < buf.length := by omega
    have hdrop : buf.drop ptrIdx = buf[ptrIdx] :: buf.drop (ptrIdx + 1) :=
      List.drop_eq_getElem_cons hp
    have hgetD : buf.getD ptrIdx 0 = buf[ptrIdx] := by
      simp [List.getD_eq_getElem?_getD, List.getElem?_eq_getElem hp]
    simp only [getsLoop, pred64_eq_sub_one size hpos hlt]
    rcases Nat.lt_or_ge 1 size with h2 | h2
    · have hne : ¬ (size - 1 = 0) := by omega
      simp only [hne, if_false, hgetD, hdrop, List.take_succ_cons]
      obtain ⟨k, hk⟩ : ∃ k, size - 1 = k + 1 := ⟨size - 2, by omega⟩
      rw [hk]
      simp only [takeLine]
      split
      · rename_i hnl; simp [hnl]
      · rename_i hnl
        have ih2 := ih (ptrIdx + 1) (size - 1) (by omega) (by omega) (by omega)
        rw [hk] at ih2
        simp [hnl, ih2]
    · have hs1 : size = 1 := by omega
      subst hs1
      simp [takeLine]

theorem gets_of_copied_nil (b : SndInputBuffer) (size : Nat)
    (h : (getsLoop b.buf b.size b.ptrIdx size).1 = []) :
    snd_input_buffer_gets b size = ⟨none, [], b⟩ := by
  have hs := getsLoop_shape b.buf b.size b.ptrIdx size
  have hlen : (getsLoop b.buf b.size b.ptrIdx size).1.length = 0 := by rw [h]; rfl
  have hc : (getsLoop b.buf b.size b.ptrIdx size).2.2 = b.size := by omega
  have hp : (getsLoop b.buf b.size b.ptrIdx size).2.1 = b.ptrIdx := by omega
  simp [snd_input_buffer_gets, hc, h, hp]

theorem gets_of_copied_ne_nil (b : SndInputBuffer) (size : Nat)
    (h : (getsLoop b.buf b.size b.ptrIdx size).1 ≠ []) :
    snd_input_buffer_gets b size =
      ⟨some (getsLoop b.buf b.size b.ptrIdx size).1.length,
       (getsLoop b.buf b.size b.ptrIdx size).1 ++ [0],
       ⟨b.buf, b.ptrIdx + (getsLoop b.buf b.size b.ptrIdx size).1.length,
        b.size - (getsLoop b.buf b.size b.ptrIdx size).1.length⟩⟩
    ∧ 1 ≤ (getsLoop b.buf b.size b.ptrIdx size).1.length := by
  have hs := getsLoop_shape b.buf b.size b.ptrIdx size
  have hlen : (getsLoop b.buf b.size b.ptrIdx size).1.length ≠ 0 := by
    intro h0
    exact h (List.length_eq_zero.mp h0)
  have hc : ¬ ((getsLoop b.buf b.size b.ptrIdx size).2.2 = b.size) := by omega
  refine ⟨?_, by omega⟩
  simp only [snd_input_buffer_gets, hc, if_false]
  rw [GetsResult.mk.injEq]
  refine ⟨rfl, rfl, ?_⟩
  rw [SndInputBuffer.mk.injEq]
  exact ⟨rfl, hs.1, hs.2.1⟩

theorem getsLoop_size_one (buf : List Nat) (bsize ptrIdx : Nat) :
    getsLoop buf bsize ptrIdx 1 = ([], ptrIdx, bsize) := by
  have h1 : pred64 1 = 0 := by decide
  cases bsize <;> simp [getsLoop, h1]

/-- C4: on a buffer-backed handle, formatted scan takes the assertion branch
(`assert(0)`) for every state and every format string: it aborts with a
diagnostic, never returns scanned data, and the cursor and remaining count
cannot have been advanced. -/
theorem snd_input_buffer_scanf_not_implemented
    (vsscanf : List Nat → String → Int) (b : SndInputBuffer) (format : String) :
    snd_input_buffer_scanf vsscanf b format = Except.error CAssertFail.fail := rfl

/-- C8: push-back while the cursor is at the start of the owned array returns
the EOF sentinel and leaves the state (cursor and remaining count) unchanged,
for every buffer including empty ones. -/
theorem ungetc_at_start_eof (b : SndInputBuffer) (c : Int)
    (h : b.ptrIdx = 0) : snd_input_buffer_ungetc b c = Except.ok (cEOF, b) := by
  simp [snd_input_buffer_ungetc, h]

theorem ungetc_at_start_eof_witness :
    (snd_input_buffer_open [] 0).ptrIdx = 0
    ∧ snd_input_buffer_ungetc (snd_input_buffer_open [] 0) 97
        = Except.ok (cEOF, snd_input_buffer_open [] 0) :=
  ⟨rfl, ungetc_at_start_eof (snd_input_buffer_open [] 0) 97 rfl⟩

/-- C1: evaluation at the failing input. Attaching a stream with
close_flag = 0 and closing the handle still runs `fclose` on the caller's
`FILE`, because `if (close)` in `snd_input_stdio_close` tests the address of
`unistd.h`'s `close(2)` rather than `stdio->close`; the close result is 0 in
every case, and with close_flag = 1 the stream is (as claimed) closed. -/
theorem stdio_close_ignores_close_flag :
    (snd_input_close_stdio (snd_input_stdio_attach 7 0)).1 = true
    ∧ (snd_input_close_stdio (snd_input_stdio_attach 7 1)).1 = true
    ∧ (snd_input_close_stdio (snd_input_stdio_attach 7 0)).2 = 0 := by decide

/-- C3: evaluation at the failing input. With capacity size = 0 over a buffer
holding one unread byte, the unsigned predecrement of `size` wraps around, so
read-line stores two bytes (the copied byte and the 0 terminator) through a
zero-capacity destination, contradicting the claimed `size - 1` copy bound
(size = 1, in contrast, stores nothing). -/
theorem gets_size_zero_writes_past_destination :
    (snd_input_buffer_gets (snd_input_buffer_open [97] 1) 0).writes = [97, 0]
    ∧ ¬ ((snd_input_buffer_gets (snd_input_buffer_open [97] 1) 0).writes.length ≤ 0)
    ∧ (snd_input_buffer_gets (snd_input_buffer_open [97] 1) 1).writes = [] := by decide

/-- C2: counterexample. A read-line call that copied three bytes returns the
pointer `str + 3` — the position of the terminator it wrote — and not the
caller's destination pointer `str` (offset 0), refuting the claim that the
destination pointer itself is returned. -/
theorem gets_returns_advanced_pointer_at_concrete :
    (snd_input_buffer_gets (snd_input_buffer_open [97, 98, 10] 3) 8).result = some 3
    ∧ (snd_input_buffer_gets (snd_input_buffer_open [97, 98, 10] 3) 8).writes = [97, 98, 10, 0]
    ∧ (snd_input_buffer_gets (snd_input_buffer_open [97, 98, 10] 3) 8).result ≠ some 0 := by
  decide

/-- C2: amended claim. Whenever read-line returns a non-NULL pointer, that
pointer is the caller's destination advanced by the number of bytes copied
(at least one): it points at the written null terminator, not at the start
of the destination. -/
theorem gets_nonnull_result_is_terminator_offset (b : SndInputBuffer) (size : Nat)
    (h : (snd_input_buffer_gets b size).result ≠ none) :
    (snd_input_buffer_gets b size).result
      = some (getsLoop b.buf b.size b.ptrIdx size).1.length
    ∧ 1 ≤ (getsLoop b.buf b.size b.ptrIdx size).1.length := by
  by_cases hnil : (getsLoop b.buf b.size b.ptrIdx size).1 = []
  · rw [gets_of_copied_nil b size hnil] at h
    simp at h
  · obtain ⟨heq, hge⟩ := gets_of_copied_ne_nil b size hnil
    rw [heq]
    exact ⟨rfl, hge⟩

theorem gets_nonnull_result_is_terminator_offset_witness :
    (snd_input_buffer_gets (snd_input_buffer_open [10] 1) 4).result ≠ none
    ∧ ((snd_input_buffer_gets (snd_input_buffer_open [10] 1) 4).result
        = some (getsLoop (snd_input_buffer_open [10] 1).buf (snd_input_buffer_open [10] 1).size
            (snd_input_buffer_open [10] 1).ptrIdx 4).1.length
      ∧ 1 ≤ (getsLoop (snd_input_buffer_open [10] 1).buf (snd_input_buffer_open [10] 1).size
            (snd_input_buffer_open [10] 1).ptrIdx 4).1.length) :=
  ⟨by decide, gets_nonnull_result_is_terminator_offset (snd_input_buffer_open [10] 1) 4 (by decide)⟩

/-- C10: read-line returns NULL exactly when zero bytes were copied, and then
the cursor, the remaining count and the destination are entirely untouched;
zero bytes are copied whenever remaining is 0 at entry and also whenever the
capacity is 1 (even with unread bytes remaining), so a NULL result does not
imply end-of-input. -/
theorem gets_null_iff_nothing_copied (b : SndInputBuffer) (size : Nat) :
    ((snd_input_buffer_gets b size).result = none
        ↔ (getsLoop b.buf b.size b.ptrIdx size).1 = [])
    ∧ ((snd_input_buffer_gets b size).result = none →
        (snd_input_buffer_gets b size).writes = []
        ∧ (snd_input_buffer_gets b size).state = b)
    ∧ (b.size = 0 → (snd_input_buffer_gets b size).result = none)
    ∧ (size = 1 → (snd_input_buffer_gets b size).result = none) := by
  have hnil_case : (getsLoop b.buf b.size b.ptrIdx size).1 = [] →
      snd_input_buffer_gets b size = ⟨none, [], b⟩ := gets_of_copied_nil b size
  refine ⟨⟨?_, ?_⟩, ?_, ?_, ?_⟩
  · intro hnull
    by_contra hne
    rw [(gets_of_copied_ne_nil b size hne).1] at hnull
    simp at hnull
  · intro hnil
    rw [hnil_case hnil]
  · intro hnull
    by_cases hnil : (getsLoop b.buf b.size b.ptrIdx size).1 = []
    · rw [hnil_case hnil]
      exact ⟨rfl, rfl⟩
    · rw [(gets_of_copied_ne_nil b size hnil).1] at hnull
      simp at hnull
  · intro h0
    have hnil : (getsLoop b.buf b.size b.ptrIdx size).1 = [] := by
      rw [h0]
      cases size <;> rfl
    rw [hnil_case hnil]
  · intro h1
    subst h1
    have hnil : (getsLoop b.buf b.size b.ptrIdx 1).1 = [] := by
      rw [getsLoop_size_one]
    rw [hnil_case hnil]

theorem gets_null_iff_nothing_copied_witness :
    (snd_input_buffer_gets ⟨[97, 0], 0, 1⟩ 1).result = none
    ∧ (snd_input_buffer_gets ⟨[97, 0], 0, 1⟩ 1).state = ⟨[97, 0], 0, 1⟩
    ∧ 0 < (1 : Nat) := by
  have h := gets_null_iff_nothing_copied ⟨[97, 0], 0, 1⟩ 1
  exact ⟨h.2.2.2 rfl, (h.2.1 (h.2.2.2 rfl)).2, Nat.one_pos⟩

/-- C5: for capacity at least 2, read-line copies from the cursor exactly the
remaining bytes up to and including the first newline, capped at `size - 1`
bytes and at the remaining count — whichever bound is hit first — and, when
the result is non-NULL, the destination holds those copied bytes followed by
a 0 terminator. -/
theorem gets_copies_up_to_newline_capacity_or_end (b : SndInputBuffer) (size : Nat)
    (h2 : 2 ≤ size) (hW : size < w64) (hb : b.ptrIdx + b.size ≤ b.buf.length) :
    (getsLoop b.buf b.size b.ptrIdx size).1
      = takeLine (size - 1) ((b.buf.drop b.ptrIdx).take b.size)
    ∧ ((snd_input_buffer_gets b size).result ≠ none →
        (snd_input_buffer_gets b size).writes
          = takeLine (size - 1) ((b.buf.drop b.ptrIdx).take b.size) ++ [0]) := by
  have hcopy := getsLoop_copied b.buf b.size b.ptrIdx size (by omega) hW hb
  refine ⟨hcopy, ?_⟩
  intro hne
  by_cases hnil : (getsLoop b.buf b.size b.ptrIdx size).1 = []
  · rw [gets_of_copied_nil b size hnil] at hne
    simp at hne
  · rw [(gets_of_copied_ne_nil b size hnil).1, ← hcopy]

theorem gets_copies_up_to_newline_capacity_or_end_witness :
    2 ≤ 32 ∧ 32 < w64
    ∧ (snd_input_buffer_open [108, 105, 110, 101, 10, 120] 6).ptrIdx
        + (snd_input_buffer_open [108, 105, 110, 101, 10, 120] 6).size
        ≤ (snd_input_buffer_open [108, 105, 110, 101, 10, 120] 6).buf.length
    ∧ ((getsLoop (snd_input_buffer_open [108, 105, 110, 101, 10, 120] 6).buf
          (snd_input_buffer_open [108, 105, 110, 101, 10, 120] 6).size
          (snd_input_buffer_open [108, 105, 110, 101, 10, 120] 6).ptrIdx 32).1
        = takeLine (32 - 1)
            (((snd_input_buffer_open [108, 105, 110, 101, 10, 120] 6).buf.drop
                (snd_input_buffer_open [108, 105, 110, 101, 10, 120] 6).ptrIdx).take
              (snd_input_buffer_open [108, 105, 110, 101, 10, 120] 6).size)
      ∧ ((snd_input_buffer_gets (snd_input_buffer_open [108, 105, 110, 101, 10, 120] 6) 32).result ≠ none →
          (snd_input_buffer_gets (snd_input_buffer_open [108, 105, 110, 101, 10, 120] 6) 32).writes
            = takeLine (32 - 1)
                (((snd_input_buffer_open [108, 105, 110, 101, 10, 120] 6).buf.drop
                    (snd_input_buffer_open [108, 105, 110, 101, 10, 120] 6).ptrIdx).take
                  (snd_input_buffer_open [108, 105, 110, 101, 10, 120] 6).size) ++ [0])) :=
  ⟨by norm_num, by decide, by decide,
   gets_copies_up_to_newline_capacity_or_end (snd_input_buffer_open [108, 105, 110, 101, 10, 120] 6)
     32 (by norm_num) (by decide) (by decide)⟩


theorem getD_append_cons (pre : List Nat) (x : Nat) (l : List Nat) (d : Nat) :
    (pre ++ x :: l).getD pre.length d = x := by
  induction pre with
  | nil => rfl
  | cons p ps ih => simpa using ih

theorem getcN_succ (n : Nat) (b : SndInputBuffer) :
    getcN (n + 1) b
      = ((snd_input_buffer_getc b).1 :: (getcN n (snd_input_buffer_getc b).2).1,
         (getcN n (snd_input_buffer_getc b).2).2) := rfl

theorem getc_step (buf : List Nat) (ptrIdx m : Nat) :
    snd_input_buffer_getc ⟨buf, ptrIdx, m + 1⟩
      = (((buf.getD ptrIdx 0 : Nat) : Int), ⟨buf, ptrIdx + 1, m⟩) := by
  simp [snd_input_buffer_getc]

theorem getcN_reads (rest : List Nat) : ∀ pre : List Nat,
    (getcN (rest.length + 1) ⟨pre ++ rest ++ [0], pre.length, rest.length⟩).1
      = rest.map (Nat.cast : Nat → Int) ++ [cEOF] := by
  induction rest with
  | nil =>
    intro pre
    simp [getcN, snd_input_buffer_getc]
  | cons c cs ih =>
    intro pre
    have hgetD : (pre ++ (c :: cs) ++ [0]).getD pre.length 0 = c := by
      rw [List.append_assoc]
      exact getD_append_cons pre c (cs ++ [0]) 0
    have hbuf : pre ++ (c :: cs) ++ [0] = (pre ++ [c]) ++ cs ++ [0] := by simp
    have hlen : pre.length + 1 = (pre ++ [c]).length := by simp
    simp only [List.length_cons]
    rw [getcN_succ, getc_step, hgetD, List.map_cons, List.cons_append]
    rw [List.cons.injEq]
    refine ⟨rfl, ?_⟩
    have ih2 := ih (pre ++ [c])
    rw [← hbuf, ← hlen] at ih2
    exact ih2

/-- C6: opening a buffer over N source bytes (size argument N) and reading
characters one at a time yields exactly the N original bytes in order, each a
non-negative value, and the (N+1)-th read returns the EOF sentinel. -/
theorem buffer_open_then_getc_reads_back (data : List Nat) :
    (getcN (data.length + 1) (snd_input_buffer_open data (data.length : Int))).1
      = data.map (Nat.cast : Nat → Int) ++ [cEOF]
    ∧ ∀ v ∈ data.map (Nat.cast : Nat → Int), 0 ≤ v := by
  constructor
  · have h0 : ¬ ((data.length : Int) < 0) := by omega
    have hopen : snd_input_buffer_open data (data.length : Int)
        = ⟨[] ++ data ++ [0], ([] : List Nat).length, data.length⟩ := by
      simp [snd_input_buffer_open, h0]
    rw [hopen]
    exact getcN_reads data []
  · intro v hv
    simp only [List.mem_map] at hv
    obtain ⟨x, -, rfl⟩ := hv
    omega

/-- C7: if read-char on state b just returned a byte c (not EOF), leaving
state b1, then push-back of c on b1 passes the defensive assert, returns c,
and restores exactly the cursor and remaining count of b — so the following
read-char again returns c with state b1, and the pair is a no-op. -/
theorem getc_ungetc_roundtrip (b b1 : SndInputBuffer) (c : Int)
    (hread : snd_input_buffer_getc b = (c, b1)) (hc : c ≠ cEOF)
    (hbyte : b.buf.getD b.ptrIdx 0 < 256) :
    snd_input_buffer_ungetc b1 c = Except.ok (c, b)
    ∧ snd_input_buffer_getc b = (c, b1) := by
  refine ⟨?_, hread⟩
  by_cases hsz : b.size = 0
  · rw [snd_input_buffer_getc, if_pos hsz] at hread
    exact absurd (congrArg Prod.fst hread).symm hc
  · rw [snd_input_buffer_getc, if_neg hsz] at hread
    rw [Prod.mk.injEq] at hread
    obtain ⟨hcv, hb1⟩ := hread
    have hok : b1.buf.getD (b1.ptrIdx - 1) 0 = ucharOfInt c := by
      rw [← hb1, ← hcv]
      simp only [ucharOfInt]
      have : ((b.buf.getD b.ptrIdx 0 : Nat) : Int) % 256 = (b.buf.getD b.ptrIdx 0 : Nat) := by
        omega
      rw [this]
      simp
    have hptr : ¬ (b1.ptrIdx = 0) := by rw [← hb1]; simp
    rw [snd_input_buffer_ungetc, if_neg hptr]
    have hca : cassert (b1.buf.getD (b1.ptrIdx - 1) 0 = ucharOfInt c) = Except.ok () := by
      rw [cassert, if_pos hok]
    rw [hca]
    rw [Except.ok.injEq, Prod.mk.injEq]
    refine ⟨rfl, ?_⟩
    rw [← hb1]
    rw [SndInputBuffer.mk.injEq]
    refine ⟨rfl, by simp, by simp; omega⟩

theorem getc_ungetc_roundtrip_witness :
    snd_input_buffer_getc ⟨[97, 0], 0, 1⟩ = ((97 : Int), ⟨[97, 0], 1, 0⟩)
    ∧ (97 : Int) ≠ cEOF
    ∧ (⟨[97, 0], 0, 1⟩ : SndInputBuffer).buf.getD (⟨[97, 0], 0, 1⟩ : SndInputBuffer).ptrIdx 0 < 256
    ∧ (snd_input_buffer_ungetc ⟨[97, 0], 1, 0⟩ 97 = Except.ok ((97 : Int), ⟨[97, 0], 0, 1⟩)
      ∧ snd_input_buffer_getc ⟨[97, 0], 0, 1⟩ = ((97 : Int), ⟨[97, 0], 1, 0⟩)) :=
  ⟨rfl, by decide, by decide,
   getc_ungetc_roundtrip ⟨[97, 0], 0, 1⟩ ⟨[97, 0], 1, 0⟩ 97 rfl (by decide) (by decide)⟩

theorem cStrlen_le (l : List Nat) : cStrlen l ≤ l.length := by
  induction l with
  | nil => simp [cStrlen]
  | cons c cs ih =>
    simp only [cStrlen, List.length_cons]
    split
    · omega
    · omega

theorem bufInv_open (data : List Nat) (size : Int)
    (hsz : 0 ≤ size → size.toNat ≤ data.length) :
    BufInv (snd_input_buffer_open data size) := by
  have hn : (if size < 0 then cStrlen data else size.toNat) ≤ data.length := by
    split
    · exact cStrlen_le data
    · exact hsz (by omega)
  simp only [snd_input_buffer_open, BufInv, List.length_append, List.length_take,
    List.length_cons, List.length_nil]
  omega

theorem bufInv_getc (b : SndInputBuffer) (h : BufInv b) :
    BufInv (snd_input_buffer_getc b).2 := by
  obtain ⟨h1, h2, h3, h4⟩ := h
  by_cases hsz : b.size = 0
  · rw [snd_input_buffer_getc, if_pos hsz]
    exact ⟨h1, h2, h3, h4⟩
  · rw [snd_input_buffer_getc, if_neg hsz]
    refine ⟨h1, by simp; omega, by simp; omega, by simp; omega⟩

theorem bufInv_ungetc (b : SndInputBuffer) (c : Int) (r : Int × SndInputBuffer)
    (h : BufInv b) (hok : snd_input_buffer_ungetc b c = .ok r) : BufInv r.2 := by
  obtain ⟨h1, h2, h3, h4⟩ := h
  rw [snd_input_buffer_ungetc] at hok
  by_cases hp : b.ptrIdx = 0
  · rw [if_pos hp] at hok
    rw [Except.ok.injEq] at hok
    rw [← hok]
    exact ⟨h1, h2, h3, h4⟩
  · rw [if_neg hp] at hok
    split at hok
    · exact absurd hok (by simp)
    · rw [Except.ok.injEq] at hok
      rw [← hok]
      refine ⟨h1, by simp; omega, by simp; omega, by simp; omega⟩

theorem bufInv_gets (b : SndInputBuffer) (size : Nat) (h : BufInv b) :
    BufInv (snd_input_buffer_gets b size).state := by
  obtain ⟨h1, h2, h3, h4⟩ := h
  have hs := getsLoop_shape b.buf b.size b.ptrIdx size
  by_cases hnil : (getsLoop b.buf b.size b.ptrIdx size).1 = []
  · rw [gets_of_copied_nil b size hnil]
    exact ⟨h1, h2, h3, h4⟩
  · rw [(gets_of_copied_ne_nil b size hnil).1]
    refine ⟨h1, by simp; omega, by simp; omega, by simp; omega⟩

theorem bufInv_runOps (ops : List BufOp) : ∀ b b' : SndInputBuffer,
    BufInv b → runOps ops b = some b' → BufInv b' := by
  induction ops with
  | nil =>
    intro b b' h hrun
    rw [runOps, Option.some.injEq] at hrun
    rw [← hrun]
    exact h
  | cons op ops ih =>
    intro b b' h hrun
    rw [runOps] at hrun
    cases hap : applyOp op b with
    | none => rw [hap] at hrun; exact absurd hrun (by simp)
    | some b2 =>
      rw [hap] at hrun
      refine ih b2 b' ?_ hrun
      cases op with
      | getch =>
        rw [applyOp, Option.some.injEq] at hap
        rw [← hap]
        exact bufInv_getc b ⟨h.1, h.2.1, h.2.2.1, h.2.2.2⟩
      | ungetch c =>
        rw [applyOp] at hap
        split at hap
        · rw [Option.some.injEq] at hap
          rename_i r hr
          rw [← hap]
          exact bufInv_ungetc b c r ⟨h.1, h.2.1, h.2.2.1, h.2.2.2⟩ hr
        · exact absurd hap (by simp)
      | getline size =>
        rw [applyOp, Option.some.injEq] at hap
        rw [← hap]
        exact bufInv_gets b size ⟨h.1, h.2.1, h.2.2.1, h.2.2.2⟩

/-- C9: every state reachable from open_buffer by a sequence of read-char,
push-back-char and read-line operations satisfies the buffer invariant:
remaining is at most allocated_size - 1, the cursor offset stays within the
original bytes, and cursor offset plus remaining equals the original size. -/
theorem buffer_invariant_preserved (data : List Nat) (size : Int) (ops : List BufOp)
    (b' : SndInputBuffer) (hsz : 0 ≤ size → size.toNat ≤ data.length)
    (hrun : runOps ops (snd_input_buffer_open data size) = some b') :
    BufInv b' :=
  bufInv_runOps ops (snd_input_buffer_open data size) b' (bufInv_open data size hsz) hrun

theorem buffer_invariant_preserved_witness :
    ((0 : Int) ≤ 3 → (3 : Int).toNat ≤ 3)
    ∧ runOps [BufOp.getch, BufOp.ungetch 97, BufOp.getline 4, BufOp.getch]
        (snd_input_buffer_open [97, 10, 98] 3) = some ⟨[97, 10, 98, 0], 3, 0⟩
    ∧ BufInv ⟨[97, 10, 98, 0], 3, 0⟩ :=
  ⟨by decide, by decide,
   buffer_invariant_preserved [97, 10, 98] 3
     [BufOp.getch, BufOp.ungetch 97, BufOp.getline 4, BufOp.getch]
     ⟨[97, 10, 98, 0], 3, 0⟩ (by decide) (by decide)⟩
